import Mathlib

/-!
Shallow embedding of the metis population-genetics simulator core
(genotype, individual, operator and simulator modules) together with
proofs about its genome layout, reproduction, statistics and
cycle-driver behaviour.

Genomes are byte buffers: we model them as `List Nat`, where a write
stores the value modulo 256 (the JS source writes through a
`Uint8Array`, whose assignment performs a ToUint8 conversion, ignores
out-of-range indices, and whose out-of-range reads behave like 0 once
stored).  JS objects used as ordered string-keyed maps are modelled as
association lists `List (String × _)` in insertion order; property
lookup returns the first matching key.
-/

/-- JS object property read: first entry with the given key, if any. -/
def obj_get {α : Type} (name : String) : List (String × α) → Option α
  | [] => none
  | (k, v) :: rest => if k = name then some v else obj_get name rest

/-- JS object property write: replace the first matching key in place,
otherwise append the new property at the end. -/
def obj_set {α : Type} (name : String) (value : α) : List (String × α) → List (String × α)
  | [] => [(name, value)]
  | (k, v) :: rest => if k = name then (k, value) :: rest else (k, v) :: obj_set name value rest

/-- A genomic marker: carries its list of possible allele values (uint8).
The source class gn_Marker is abstract; gn_SNP and gn_MicroSatellite only
differ in how possible_values is supplied. -/
structure gn_Marker where
  possible_values : List Nat
deriving DecidableEq, Repr

/-- A Single-Nucleotide Polymorphism; by default bi-allelic with values 0 and 1. -/
def gn_SNP (possible_values : List Nat) : gn_Marker :=
  { possible_values := possible_values }

/-- The default SNP constructor argument in the source. -/
def gn_SNP_default : gn_Marker := gn_SNP [0, 1]

/-- A microsatellite marker: possible values supplied explicitly. -/
def gn_MicroSatellite (possible_values : List Nat) : gn_Marker :=
  { possible_values := possible_values }

/-- A complete chromosome: ordered markers, optional inter-marker
distances (in cMs), and the stored size field set by the constructor. -/
structure gn_Chromosome where
  markers : List gn_Marker
  distances : Option (List Rat)
  size : Nat
deriving DecidableEq

/-- The gn_Chromosome constructor: if distances are given their length
has to be markers.length - 1, otherwise a RangeError is thrown; the
size field is set to markers.length. -/
def gn_Chromosome_new (markers : List gn_Marker) (distances : Option (List Rat)) :
    Except String gn_Chromosome :=
  match distances with
  | some ds =>
      if markers.length ≠ ds.length + 1 then
        .error "If distances are defined, its length has to be markers.length-1"
      else
        .ok { markers := markers, distances := some ds, size := markers.length }
  | none => .ok { markers := markers, distances := none, size := markers.length }

/-- Base (haploid) reproduce: copy size contiguous bytes from the parent
genome at parent_position into the individual genome at ofs_position.
Writes go through a Uint8Array, hence the modulo 256 and the fact that
an out-of-range write (List.set out of range) is a no-op. -/
def gn_Chromosome.reproduce (c : gn_Chromosome) (ind_genome parent_genome : List Nat)
    (ofs_position parent_position : Nat) : List Nat :=
  (List.range c.size).foldl
    (fun g i => g.set (ofs_position + i) (parent_genome.getD (parent_position + i) 0 % 256))
    ind_genome

/-- Effective size of the Autosome layer over a base chromosome: double. -/
def gn_Autosome_size (c : gn_Chromosome) : Nat := 2 * c.size

/-- Marker sequence of the Autosome layer: base markers concatenated with themselves. -/
def gn_Autosome_markers (c : gn_Chromosome) : List gn_Marker := c.markers ++ c.markers

/-- Autosome layer reproduce.  The coin models the Math.random() < 0.5
draw: coin true means the permutation (p1, p2) = (1, 0) is used.  The
base reproduce is invoked twice, writing parents[p1] into the first
half at position and parents[p2] into the second half at
position + size / 2, and both calls source from parent_position =
position, the same chromosomal slot of each parent. -/
def gn_Autosome_reproduce (c : gn_Chromosome) (coin : Bool) (ind_genome : List Nat)
    (parents : List (List Nat)) (position : Nat) : List Nat :=
  let p1 : Nat := if coin then 1 else 0
  let p2 : Nat := if coin then 0 else 1
  let first_half := c.reproduce ind_genome (parents.getD p1 []) position position
  c.reproduce first_half (parents.getD p2 []) (position + gn_Autosome_size c / 2) position

/-- A chromosome or a composed chromosome as stored in genome metadata.
The source composes behaviour layers over gn_Chromosome; the two
constructible kinds exercised by the core are the plain chromosome and
gn_ChromosomePair = gn_Autosome(gn_Chromosome). -/
inductive gn_CompChromosome where
  | chromosome (c : gn_Chromosome)
  | chromosomePair (c : gn_Chromosome)
deriving DecidableEq

/-- Total positions this (possibly composed) chromosome contributes. -/
def gn_CompChromosome.size : gn_CompChromosome → Nat
  | .chromosome c => c.size
  | .chromosomePair c => gn_Autosome_size c

/-- Marker sequence exposed by this (possibly composed) chromosome. -/
def gn_CompChromosome.markers : gn_CompChromosome → List gn_Marker
  | .chromosome c => c.markers
  | .chromosomePair c => gn_Autosome_markers c

/-- The autosomal capability flag of the composition layer. -/
def gn_CompChromosome.is_autosomal : gn_CompChromosome → Bool
  | .chromosome _ => false
  | .chromosomePair _ => true

/-- A genome: the ordered metadata map, the derived marker_order,
per-name start offsets and the total size. -/
structure gn_Genome where
  metadata : List (String × gn_CompChromosome)
  marker_order : List String
  marker_start : List (String × Nat)
  size : Nat
deriving DecidableEq

/-- The start-offset accumulation of gn_Genome._compute_marker_positions:
walk the metadata in insertion order, record the running start for each
name, and advance by each entry size. -/
def gn_Genome_positions (start : Nat) : List (String × gn_CompChromosome) → List (String × Nat)
  | [] => []
  | (name, e) :: rest => (name, start) :: gn_Genome_positions (start + e.size) rest

/-- O(1) start-offset lookup; absent names return none (undefined). -/
def gn_Genome.get_marker_start (g : gn_Genome) (name : String) : Option Nat :=
  obj_get name g.marker_start

/-- The gn_Genome constructor: computes marker_order and marker_start,
then sets size to the start of the last marker name plus that entry
size.  On empty metadata the source dereferences undefined and throws
a TypeError, modelled as the error case. -/
def gn_Genome_new (metadata : List (String × gn_CompChromosome)) : Except String gn_Genome :=
  match (metadata.map Prod.fst).getLast? with
  | none => .error "TypeError: cannot read size of undefined"
  | some last_marker_name =>
      match obj_get last_marker_name metadata,
          obj_get last_marker_name (gn_Genome_positions 0 metadata) with
      | some last_marker, some last_start =>
          .ok { metadata := metadata, marker_order := metadata.map Prod.fst,
                marker_start := gn_Genome_positions 0 metadata,
                size := last_start + last_marker.size }
      | _, _ => .error "TypeError: cannot read size of undefined"

/-- A species: a name paired with one genome. -/
structure sp_Species where
  name : String
  genome : gn_Genome
deriving DecidableEq

/-- An individual: unique id, species back-reference, alive flag,
birth cycle and the genome byte buffer. -/
structure i_Individual where
  id : Nat
  species : sp_Species
  alive : Bool
  cycle_born : Nat
  genome : List Nat
deriving DecidableEq

/-- One bump of a frequency table (a JS object keyed by allele):
increment the count stored under the allele, inserting 1 if absent. -/
def ops_incr_count (allele : Nat) : List (Nat × Nat) → List (Nat × Nat)
  | [] => [(allele, 1)]
  | (k, n) :: rest =>
      if k = allele then (k, n + 1) :: rest else (k, n) :: ops_incr_count allele rest

/-- The per-locus tally of ops_GenomeCountStatistics.compute: for every
entry of the start list and every individual, read the allele at
position_i in that individual genome and bump its count.  Note the
source reads individual.genome[position + i] without ever adding
my_start, so every pass over the start list reads the same byte. -/
def ops_feature_tally (starts : List Nat) (individuals : List i_Individual)
    (position_i : Nat) : List (Nat × Nat) :=
  starts.foldl
    (fun fc _ =>
      individuals.foldl (fun fc2 ind => ops_incr_count (ind.genome.getD position_i 0) fc2) fc)
    []

/-- The per-chromosome list of frequency tables built by
ops_GenomeCountStatistics.compute: autosomal entries scan
features.length / 2 independent loci with the start list
[0, num_features], others scan every feature with start list [0]. -/
def ops_marker_tables (marker : gn_CompChromosome) (individuals : List i_Individual)
    (position : Nat) : List (List (Nat × Nat)) :=
  let features := marker.markers
  let num_features := if marker.is_autosomal then features.length / 2 else features.length
  let starts : List Nat := if marker.is_autosomal then [0, features.length / 2] else [0]
  (List.range num_features).map (fun i => ops_feature_tally starts individuals (position + i))

/-- The walk of ops_GenomeCountStatistics.compute over marker_order,
looking each name up in the metadata and advancing position by the
entry size; a missing metadata entry would throw in JS, modelled as
none. -/
def ops_compute_go (metadata : List (String × gn_CompChromosome))
    (individuals : List i_Individual) :
    Nat → List String → Option (List (String × List (List (Nat × Nat))))
  | _, [] => some []
  | position, name :: rest =>
      match obj_get name metadata with
      | none => none
      | some marker =>
          match ops_compute_go metadata individuals (position + marker.size) rest with
          | none => none
          | some counts => some ((name, ops_marker_tables marker individuals position) :: counts)

/-- Modelled from the spec: the subclass hook compute_counts applied to
the tabulated counts is not present under src; per the specification
a pass-through identity reducer is the minimal conformant default. -/
def ops_GenomeCountStatistics_compute_counts
    (counts : List (String × List (List (Nat × Nat)))) :
    List (String × List (List (Nat × Nat))) := counts

/-- ops_GenomeCountStatistics.compute: takes the species genome of the
first individual (none models the JS TypeError on an empty population)
and tabulates allele counts for every chromosome in marker_order. -/
def ops_GenomeCountStatistics_compute (individuals : List i_Individual) :
    Option (List (String × List (List (Nat × Nat)))) :=
  match individuals with
  | [] => none
  | ind0 :: _ =>
      let genome := ind0.species.genome
      (ops_compute_go genome.metadata individuals 0 genome.marker_order).map
        ops_GenomeCountStatistics_compute_counts

/-- The inner loop of integrated_create_simple_genome for one
chromosome: write func(features[i].possible_values) into the buffer at
position + i for every feature index i. -/
def integrated_write_features (func : List Nat → Nat) (features : List gn_Marker)
    (position : Nat) (buffer : List Nat) : List Nat :=
  (List.range features.length).foldl
    (fun b i => b.set (position + i) (func ((features.getD i { possible_values := [] }).possible_values) % 256))
    buffer

/-- The walk of integrated_create_simple_genome over marker_order. -/
def integrated_create_simple_genome_go (metadata : List (String × gn_CompChromosome))
    (func : List Nat → Nat) :
    Nat → List Nat → List String → Option (List Nat)
  | _, buffer, [] => some buffer
  | position, buffer, name :: rest =>
      match obj_get name metadata with
      | none => none
      | some marker =>
          integrated_create_simple_genome_go metadata func (position + marker.size)
            (integrated_write_features func marker.markers position buffer) rest

/-- integrated_create_simple_genome: allocate a zero byte buffer of
genome.size, then fill every chromosome feature with the chooser. -/
def integrated_create_simple_genome (genome : gn_Genome) (func : List Nat → Nat) :
    Option (List Nat) :=
  integrated_create_simple_genome_go genome.metadata func 0
    (List.replicate genome.size 0) genome.marker_order

/-- utils_random_choice: choices[floor(random * choices.length)].  The
random draw is modelled by the pick argument, reduced modulo the list
length exactly as floor(r * len) with r in [0, 1) always lands in
[0, len). -/
def utils_random_choice (pick : Nat) (choices : List Nat) : Nat :=
  choices.getD (pick % choices.length) 0

/-- integrated_create_randomized_genome: create_simple_genome with the
uniform-random chooser; pick supplies one random draw per call. -/
def integrated_create_randomized_genome (pick : List Nat → Nat) (genome : gn_Genome) :
    Option (List Nat) :=
  integrated_create_simple_genome genome
    (fun possible_values => utils_random_choice (pick possible_values) possible_values)

/-- The global_parameters object of the simulation state: the stop flag
plus the remaining named slots (statistics results).  V is the type of
the stored statistics values. -/
structure sim_GlobalParams (V : Type) where
  stop : Bool
  stats : List (String × V)
deriving DecidableEq

/-- Operators of the pipeline: ops_CycleStopOperator with its target
cycle, and ops_StatisticsOperator with its name and the subclass
compute function of (global_parameters, cycle, individuals). -/
inductive ops_Operator (V : Type) where
  | cycleStop (cycle : Nat)
  | statistics (name : String) (compute : sim_GlobalParams V → Nat → List i_Individual → V)

/-- The simulation state: global_parameters, individuals, operators, cycle. -/
structure sim_State (V : Type) where
  global_parameters : sim_GlobalParams V
  individuals : List i_Individual
  operators : List (ops_Operator V)
  cycle : Nat

/-- operator.change(state): ops_CycleStopOperator sets stop when
state.cycle === target; ops_StatisticsOperator stores
compute(global_parameters, cycle, individuals) under its name. -/
def ops_Operator.change {V : Type} : ops_Operator V → sim_State V → sim_State V
  | .cycleStop target, state =>
      if state.cycle = target then
        { state with global_parameters := { state.global_parameters with stop := true } }
      else state
  | .statistics name compute, state =>
      let value := compute state.global_parameters state.cycle state.individuals
      let gp := { state.global_parameters with stats := obj_set name value state.global_parameters.stats }
      { state with global_parameters := gp }

/-- sim_cycle: apply every operator in list order to the shared state,
then increment cycle by one. -/
def sim_cycle {V : Type} (state : sim_State V) : sim_State V :=
  let state2 := state.operators.foldl (fun s op => op.change s) state
  { state2 with cycle := state2.cycle + 1 }

/-- The while loop of sim_do_unspecified_cycles, made total by fuel:
none models non-termination within the allotted fuel. -/
def sim_run_while {V : Type} (fuel : Nat) (state : sim_State V) : Option (sim_State V) :=
  match fuel with
  | 0 => none
  | fuel + 1 =>
      if state.global_parameters.stop = false then sim_run_while fuel (sim_cycle state)
      else some state

/-- sim_do_unspecified_cycles: start from a fresh state with stop false
and repeat cycle steps while stop is false. -/
def sim_do_unspecified_cycles {V : Type} (fuel : Nat) (individuals : List i_Individual)
    (operators : List (ops_Operator V)) (previous_cycle : Nat) : Option (sim_State V) :=
  sim_run_while fuel
    { global_parameters := { stop := false, stats := [] }, individuals := individuals,
      operators := operators, cycle := previous_cycle }

/-- sim_do_n_cycles without callback: append a CycleStopOperator
targeting n + previous_cycle and run the unspecified-cycle loop. -/
def sim_do_n_cycles {V : Type} (fuel n : Nat) (individuals : List i_Individual)
    (operators : List (ops_Operator V)) (previous_cycle : Nat) : Option (sim_State V) :=
  sim_do_unspecified_cycles fuel individuals
    (operators ++ [.cycleStop (n + previous_cycle)]) previous_cycle

/-- sim_do_async_cycles, modelled as the list of states handed to the
callback when the caller always invokes the resume continuation; the
final list element is the invocation whose resume is omitted (stop
set).  Faithful to the source, each invocation rebuilds
global_parameters as only stop false, ignoring the global_parameters
argument it received, and resumes with previous_cycle + 1. -/
def sim_do_async_cycles {V : Type} (fuel : Nat) (individuals : List i_Individual)
    (operators : List (ops_Operator V)) (previous_cycle : Nat)
    (global_parameters : sim_GlobalParams V) : Option (List (sim_State V)) :=
  match fuel with
  | 0 => none
  | fuel + 1 =>
      let state := sim_cycle
        { global_parameters := { stop := false, stats := [] }, individuals := individuals,
          operators := operators, cycle := previous_cycle }
      if state.global_parameters.stop = false then
        (sim_do_async_cycles fuel state.individuals state.operators (previous_cycle + 1)
            state.global_parameters).map
          (fun rest => state :: rest)
      else some [state]

/-! ## List write lemmas -/

theorem list_getD_set (l : List Nat) (k v j : Nat) :
    (l.set k v).getD j 0 = if k = j ∧ k < l.length then v else l.getD j 0 := by
  induction l generalizing k j with
  | nil => simp
  | cons a t ih =>
    cases k with
    | zero =>
      cases j with
      | zero => simp
      | succ j => simp
    | succ k =>
      cases j with
      | zero => simp
      | succ j =>
        simp only [List.set, List.getD_cons_succ, ih k j, List.length_cons]
        by_cases h : k = j ∧ k < t.length
        · rw [if_pos h, if_pos (by omega)]
        · rw [if_neg h, if_neg (by omega)]

theorem foldl_set_length (buf : List Nat) (ofs n : Nat) (v : Nat → Nat) :
    ((List.range n).foldl (fun b i => b.set (ofs + i) (v i)) buf).length = buf.length := by
  induction n with
  | zero => simp
  | succ n ih => rw [List.range_succ, List.foldl_append]; simp [ih]

theorem foldl_set_getD (buf : List Nat) (ofs n : Nat) (v : Nat → Nat) (j : Nat) :
    ((List.range n).foldl (fun b i => b.set (ofs + i) (v i)) buf).getD j 0 =
      if ofs ≤ j ∧ j < ofs + n ∧ j < buf.length then v (j - ofs) else buf.getD j 0 := by
  induction n with
  | zero =>
    rw [if_neg (by omega)]; simp
  | succ n ih =>
    rw [List.range_succ, List.foldl_append]
    simp only [List.foldl_cons, List.foldl_nil]
    rw [list_getD_set, foldl_set_length, ih]
    by_cases hj : ofs + n = j ∧ ofs + n < buf.length
    · rw [if_pos hj, if_pos (show ofs ≤ j ∧ j < ofs + (n + 1) ∧ j < buf.length by omega)]
      have h2 : j - ofs = n := by omega
      rw [h2]
    · rw [if_neg hj]
      by_cases hcond : ofs ≤ j ∧ j < ofs + n ∧ j < buf.length
      · rw [if_pos hcond,
          if_pos (show ofs ≤ j ∧ j < ofs + (n + 1) ∧ j < buf.length by omega)]
      · rw [if_neg hcond,
          if_neg (show ¬(ofs ≤ j ∧ j < ofs + (n + 1) ∧ j < buf.length) by omega)]

theorem gn_Chromosome_reproduce_length (c : gn_Chromosome) (ind par : List Nat)
    (ofs pp : Nat) : (c.reproduce ind par ofs pp).length = ind.length :=
  foldl_set_length ind ofs c.size (fun i => par.getD (pp + i) 0 % 256)

theorem gn_Chromosome_reproduce_getD (c : gn_Chromosome) (ind par : List Nat)
    (ofs pp j : Nat) :
    (c.reproduce ind par ofs pp).getD j 0 =
      if ofs ≤ j ∧ j < ofs + c.size ∧ j < ind.length
      then par.getD (pp + (j - ofs)) 0 % 256
      else ind.getD j 0 :=
  foldl_set_getD ind ofs c.size (fun i => par.getD (pp + i) 0 % 256) j

theorem mem_getD_lt_256 (l : List Nat) (hl : ∀ x ∈ l, x < 256) (k : Nat) :
    l.getD k 0 % 256 = l.getD k 0 := by
  by_cases hk : k < l.length
  · have hmem : l[k] ∈ l := List.getElem_mem hk
    have heq : l.getD k 0 = l[k] := by
      rw [List.getD_eq_getElem?_getD, List.getElem?_eq_getElem hk]
      rfl
    rw [heq]
    exact Nat.mod_eq_of_lt (hl _ hmem)
  · have heq : l.getD k 0 = 0 := by
      rw [List.getD_eq_getElem?_getD, List.getElem?_eq_none (by omega : l.length ≤ k)]
      rfl
    rw [heq]

/-- C10: the base (haploid) Chromosome reproduce on a chromosome of size
s leaves every byte of the individual genome outside
[ofs_position, ofs_position + s) unchanged, and makes the bytes inside
that range equal parent.genome[parent_position ..] verbatim (for
in-range positions of a byte-valued parent genome); the parent genome
is a pure input of the embedding and is not modified. -/
theorem chromosome_reproduce_frame (c : gn_Chromosome) (ind par : List Nat)
    (ofs pp : Nat) (hpar : ∀ x ∈ par, x < 256) :
    (c.reproduce ind par ofs pp).length = ind.length ∧
    (∀ j, ¬(ofs ≤ j ∧ j < ofs + c.size) →
      (c.reproduce ind par ofs pp).getD j 0 = ind.getD j 0) ∧
    (∀ j, ofs ≤ j → j < ofs + c.size → j < ind.length →
      (c.reproduce ind par ofs pp).getD j 0 = par.getD (pp + (j - ofs)) 0) := by
  refine ⟨gn_Chromosome_reproduce_length c ind par ofs pp, ?_, ?_⟩
  · intro j hj
    rw [gn_Chromosome_reproduce_getD, if_neg (by tauto)]
  · intro j h1 h2 h3
    rw [gn_Chromosome_reproduce_getD, if_pos ⟨h1, h2, h3⟩, mem_getD_lt_256 par hpar]

/-- Witness for chromosome_reproduce_frame at a concrete input. -/
theorem chromosome_reproduce_frame_witness :
    (∀ x ∈ [5, 6], x < 256) ∧
    (({ markers := [gn_SNP_default], distances := none, size := 1 } :
        gn_Chromosome).reproduce [1, 2, 3] [5, 6] 1 0).getD 1 0 = [5, 6].getD 0 0 := by
  refine ⟨by decide, ?_⟩
  have h := (chromosome_reproduce_frame
    { markers := [gn_SNP_default], distances := none, size := 1 }
    [1, 2, 3] [5, 6] 1 0 (by decide)).2.2 1 (by decide) (by decide) (by decide)
  simpa using h

theorem autosome_halves (c : gn_Chromosome) (g1 g2 ind : List Nat) (position : Nat)
    (hlen : position + 2 * c.size ≤ ind.length)
    (h1 : ∀ x ∈ g1, x < 256) (h2 : ∀ x ∈ g2, x < 256) (i : Nat) (hi : i < c.size) :
    (c.reproduce (c.reproduce ind g1 position position) g2 (position + c.size)
        position).getD (position + i) 0 = g1.getD (position + i) 0 ∧
    (c.reproduce (c.reproduce ind g1 position position) g2 (position + c.size)
        position).getD (position + c.size + i) 0 = g2.getD (position + i) 0 := by
  constructor
  · rw [gn_Chromosome_reproduce_getD, if_neg (by omega),
      gn_Chromosome_reproduce_getD,
      if_pos ⟨by omega, by omega, by omega⟩]
    have hidx : position + (position + i - position) = position + i := by omega
    rw [hidx, mem_getD_lt_256 g1 h1]
  · rw [gn_Chromosome_reproduce_getD, gn_Chromosome_reproduce_length,
      if_pos ⟨by omega, by omega, by omega⟩]
    have hidx : position + (position + c.size + i - (position + c.size)) = position + i := by
      omega
    rw [hidx, mem_getD_lt_256 g2 h2]

/-- C2: the Autosome layer reproduce on a composed chromosome of total
size 2h over parents [a, b] uses some permutation (p1, p2) of (a, b)
(selected by the random coin; both orientations are reachable), and
after the call the first half [position, position + h) of the offspring
genome equals the same region of p1 and the second half
[position + h, position + 2h) equals the region [position, position + h)
of p2: both gametes are sourced from offset position, the same
chromosomal slot, in the respective parent. -/
theorem autosome_reproduce_permutation (c : gn_Chromosome) (coin : Bool)
    (a b ind : List Nat) (position : Nat)
    (hlen : position + 2 * c.size ≤ ind.length)
    (ha : ∀ x ∈ a, x < 256) (hb : ∀ x ∈ b, x < 256) :
    gn_Autosome_size c = 2 * c.size ∧
    ∃ p1 p2 : List Nat,
      ((coin = false ∧ (p1, p2) = (a, b)) ∨ (coin = true ∧ (p1, p2) = (b, a))) ∧
      ∀ i, i < c.size →
        (gn_Autosome_reproduce c coin ind [a, b] position).getD (position + i) 0 =
          p1.getD (position + i) 0 ∧
        (gn_Autosome_reproduce c coin ind [a, b] position).getD
            (position + c.size + i) 0 =
          p2.getD (position + i) 0 := by
  have hdiv : gn_Autosome_size c / 2 = c.size := by
    unfold gn_Autosome_size
    omega
  refine ⟨rfl, ?_⟩
  cases coin with
  | false =>
    refine ⟨a, b, Or.inl ⟨rfl, rfl⟩, ?_⟩
    intro i hi
    have hrw : gn_Autosome_reproduce c false ind [a, b] position =
        c.reproduce (c.reproduce ind a position position) b (position + c.size) position := by
      unfold gn_Autosome_reproduce
      rw [hdiv]
      rfl
    rw [hrw]
    exact autosome_halves c a b ind position hlen ha hb i hi
  | true =>
    refine ⟨b, a, Or.inr ⟨rfl, rfl⟩, ?_⟩
    intro i hi
    have hrw : gn_Autosome_reproduce c true ind [a, b] position =
        c.reproduce (c.reproduce ind b position position) a (position + c.size) position := by
      unfold gn_Autosome_reproduce
      rw [hdiv]
      rfl
    rw [hrw]
    exact autosome_halves c b a ind position hlen hb ha i hi

/-- A concrete one-SNP chromosome used by the concrete-input theorems. -/
def snp1_chromosome : gn_Chromosome :=
  { markers := [gn_SNP_default], distances := none, size := 1 }

/-- Witness for autosome_reproduce_permutation: one SNP chromosome,
parents [7, 8] and [9, 10], coin false, offspring buffer [0, 0]. -/
theorem autosome_reproduce_permutation_witness :
    (0 + 2 * snp1_chromosome.size ≤ ([0, 0] : List Nat).length) ∧
    (gn_Autosome_size snp1_chromosome = 2 * snp1_chromosome.size ∧
      ∃ p1 p2 : List Nat,
        ((false = false ∧ (p1, p2) = ([7, 8], [9, 10])) ∨
          (false = true ∧ (p1, p2) = ([9, 10], [7, 8]))) ∧
        ∀ i, i < snp1_chromosome.size →
          (gn_Autosome_reproduce snp1_chromosome false [0, 0]
              [[7, 8], [9, 10]] 0).getD (0 + i) 0 = p1.getD (0 + i) 0 ∧
          (gn_Autosome_reproduce snp1_chromosome false [0, 0]
              [[7, 8], [9, 10]] 0).getD (0 + snp1_chromosome.size + i) 0 =
            p2.getD (0 + i) 0) :=
  ⟨by decide,
    autosome_reproduce_permutation snp1_chromosome
      false [7, 8] [9, 10] [0, 0] 0 (by decide) (by decide) (by decide)⟩

/-! ## Chromosome and genome construction -/

/-- C7: Chromosome construction succeeds with size = markers.length
whenever distances is absent, or present with length markers.length - 1
(stated integer-faithfully as distances.length + 1 = markers.length);
any present distances of mismatched length is a RangeError. -/
theorem chromosome_construction_distances (markers : List gn_Marker) :
    (gn_Chromosome_new markers none =
      .ok { markers := markers, distances := none, size := markers.length }) ∧
    (∀ ds : List Rat, ds.length + 1 = markers.length →
      gn_Chromosome_new markers (some ds) =
        .ok { markers := markers, distances := some ds, size := markers.length }) ∧
    (∀ ds : List Rat, ds.length + 1 ≠ markers.length →
      gn_Chromosome_new markers (some ds) =
        .error "If distances are defined, its length has to be markers.length-1") := by
  refine ⟨rfl, ?_, ?_⟩
  · intro ds hds
    have hred : gn_Chromosome_new markers (some ds) =
        if markers.length ≠ ds.length + 1 then
          .error "If distances are defined, its length has to be markers.length-1"
        else .ok { markers := markers, distances := some ds, size := markers.length } := rfl
    rw [hred, if_neg (show ¬markers.length ≠ ds.length + 1 by omega)]
  · intro ds hds
    have hred : gn_Chromosome_new markers (some ds) =
        if markers.length ≠ ds.length + 1 then
          .error "If distances are defined, its length has to be markers.length-1"
        else .ok { markers := markers, distances := some ds, size := markers.length } := rfl
    rw [hred, if_pos (show markers.length ≠ ds.length + 1 by omega)]

/-- Witness for chromosome_construction_distances: two markers with one
distance succeed, two markers with two distances fail. -/
theorem chromosome_construction_distances_witness :
    (gn_Chromosome_new [gn_SNP_default, gn_SNP_default] (some [(1 : Rat)]) =
      .ok { markers := [gn_SNP_default, gn_SNP_default], distances := some [(1 : Rat)],
            size := 2 }) ∧
    (gn_Chromosome_new [gn_SNP_default, gn_SNP_default] (some [(1 : Rat), 2]) =
      .error "If distances are defined, its length has to be markers.length-1") := by
  constructor
  · exact (chromosome_construction_distances [gn_SNP_default, gn_SNP_default]).2.1
      [(1 : Rat)] (by decide)
  · exact (chromosome_construction_distances [gn_SNP_default, gn_SNP_default]).2.2
      [(1 : Rat), 2] (by decide)

theorem getLast?_mem_self {α : Type} (l : List α) (h : l ≠ []) :
    ∃ x, l.getLast? = some x ∧ x ∈ l := by
  induction l with
  | nil => exact absurd rfl h
  | cons a t ih =>
    cases t with
    | nil => exact ⟨a, rfl, List.mem_singleton_self a⟩
    | cons b t2 =>
      obtain ⟨x, hx, hmem⟩ := ih (by simp)
      exact ⟨x, by rw [List.getLast?_cons_cons]; exact hx, List.mem_cons_of_mem a hmem⟩

theorem obj_get_of_mem_fst {α : Type} (l : List (String × α)) (n : String)
    (h : n ∈ l.map Prod.fst) : ∃ v, obj_get n l = some v := by
  induction l with
  | nil => simp at h
  | cons p t ih =>
    by_cases hp : p.1 = n
    · exact ⟨p.2, by simp [obj_get, hp]⟩
    · have : n ∈ t.map Prod.fst := by
        rcases List.mem_map.mp h with ⟨q, hq, hqn⟩
        rcases List.mem_cons.mp hq with hq1 | hq2
        · exact absurd (hq1 ▸ hqn) hp
        · exact List.mem_map.mpr ⟨q, hq2, hqn⟩
      obtain ⟨v, hv⟩ := ih this
      exact ⟨v, by simp [obj_get, hp, hv]⟩

theorem gn_Genome_positions_map_fst (s : Nat) (md : List (String × gn_CompChromosome)) :
    (gn_Genome_positions s md).map Prod.fst = md.map Prod.fst := by
  induction md generalizing s with
  | nil => rfl
  | cons p t ih =>
    cases p with
    | mk n e => simp [gn_Genome_positions, ih]

/-- C8: Genome construction on empty metadata raises a construction
error (the source dereferences undefined), while construction on any
non-empty metadata succeeds. -/
theorem genome_construction_empty_vs_nonempty :
    (gn_Genome_new [] = .error "TypeError: cannot read size of undefined") ∧
    (∀ md : List (String × gn_CompChromosome), md ≠ [] →
      ∃ g : gn_Genome, gn_Genome_new md = .ok g) := by
  constructor
  · rfl
  · intro md hmd
    have hnames : md.map Prod.fst ≠ [] := by
      intro h
      exact hmd (List.map_eq_nil_iff.mp h)
    obtain ⟨ln, hln, hmem⟩ := getLast?_mem_self (md.map Prod.fst) hnames
    obtain ⟨e, he⟩ := obj_get_of_mem_fst md ln hmem
    obtain ⟨st, hst⟩ := obj_get_of_mem_fst (gn_Genome_positions 0 md) ln
      (by rw [gn_Genome_positions_map_fst]; exact hmem)
    refine ⟨{ metadata := md, marker_order := md.map Prod.fst,
              marker_start := gn_Genome_positions 0 md, size := st + e.size }, ?_⟩
    unfold gn_Genome_new
    simp only [hln, he, hst]

/-- Witness for genome_construction_empty_vs_nonempty on a one-entry metadata map. -/
theorem genome_construction_empty_vs_nonempty_witness :
    ∃ g : gn_Genome, gn_Genome_new [("c", .chromosome snp1_chromosome)] = .ok g :=
  genome_construction_empty_vs_nonempty.2 [("c", .chromosome snp1_chromosome)] (by simp)

/-! ## Simulation driver lemmas -/

/-- State builder used throughout the driver proofs. -/
def mk_sim_State {V : Type} (s : Bool) (sigma : List (String × V))
    (inds : List i_Individual) (ops : List (ops_Operator V)) (c : Nat) : sim_State V :=
  { global_parameters := { stop := s, stats := sigma }, individuals := inds,
    operators := ops, cycle := c }

theorem sim_cycle_cycleStop {V : Type} (target c : Nat) (s : Bool)
    (sigma : List (String × V)) (inds : List i_Individual) :
    sim_cycle (mk_sim_State s sigma inds [.cycleStop target] c) =
      mk_sim_State (if c = target then true else s) sigma inds [.cycleStop target] (c + 1) := by
  by_cases hc : c = target
  · simp [mk_sim_State, sim_cycle, ops_Operator.change, hc]
  · simp [mk_sim_State, sim_cycle, ops_Operator.change, hc]

theorem cycleStop_iterate {V : Type} (target : Nat) (sigma : List (String × V))
    (inds : List i_Individual) : ∀ (k c : Nat) (s : Bool),
    sim_cycle^[k] (mk_sim_State s sigma inds [.cycleStop target] c) =
      mk_sim_State (s || decide (c ≤ target ∧ target < c + k)) sigma inds
        [.cycleStop target] (c + k) := by
  intro k
  induction k with
  | zero =>
    intro c s
    simp only [Function.iterate_zero, id_eq, Nat.add_zero]
    rw [decide_eq_false (by omega), Bool.or_false]
  | succ k ih =>
    intro c s
    rw [Function.iterate_succ_apply, sim_cycle_cycleStop, ih]
    have hb : ((if c = target then true else s) ||
        decide (c + 1 ≤ target ∧ target < c + 1 + k)) =
        (s || decide (c ≤ target ∧ target < c + (k + 1))) := by
      by_cases hc : c = target
      · cases s
        · rw [if_pos hc, Bool.true_or, Bool.false_or, decide_eq_true (by omega)]
        · rw [if_pos hc, Bool.true_or, Bool.true_or]
      · cases s
        · rw [if_neg hc, Bool.false_or, Bool.false_or]
          exact decide_eq_decide.mpr (by omega)
        · rw [if_neg hc, Bool.true_or, Bool.true_or]
    rw [hb]
    have hcyc : c + 1 + k = c + (k + 1) := by omega
    rw [hcyc]

/-- C6: CycleStopOperator(target).change sets stop exactly when
state.cycle equals the target (on other cycles every component of the
state, stop included, is left unchanged), and along a run of cycle
steps with that operator starting at a cycle at most the target, stop
is set after k steps exactly when the run has passed the target, never
earlier. -/
theorem cycle_stop_operator_exact_target {V : Type} (target : Nat) :
    (∀ st : sim_State V,
      ((ops_Operator.cycleStop target).change st).global_parameters.stop =
        (st.global_parameters.stop || decide (st.cycle = target)) ∧
      ((ops_Operator.cycleStop target).change st).global_parameters.stats =
        st.global_parameters.stats ∧
      ((ops_Operator.cycleStop target).change st).individuals = st.individuals ∧
      ((ops_Operator.cycleStop target).change st).operators = st.operators ∧
      ((ops_Operator.cycleStop target).change st).cycle = st.cycle) ∧
    (∀ (inds : List i_Individual) (c k : Nat), c ≤ target →
      (sim_cycle^[k]
          (mk_sim_State false [] inds [.cycleStop target] c :
            sim_State V)).global_parameters.stop =
        decide (target < c + k)) := by
  constructor
  · intro st
    by_cases hc : st.cycle = target
    · simp [ops_Operator.change, hc]
    · simp [ops_Operator.change, hc]
  · intro inds c k hc
    rw [cycleStop_iterate]
    unfold mk_sim_State
    simp only [Bool.false_or]
    exact decide_eq_decide.mpr (by omega)

/-- Witness for cycle_stop_operator_exact_target: target 2, start cycle
0; after 2 steps stop is still false, after 3 steps it is true. -/
theorem cycle_stop_operator_exact_target_witness :
    ((0 : Nat) ≤ 2) ∧
    (sim_cycle^[2]
        (mk_sim_State false [] [] [.cycleStop 2] 0 :
          sim_State Nat)).global_parameters.stop = decide ((2 : Nat) < 0 + 2) ∧
    (sim_cycle^[3]
        (mk_sim_State false [] [] [.cycleStop 2] 0 :
          sim_State Nat)).global_parameters.stop = decide ((2 : Nat) < 0 + 3) :=
  ⟨by decide,
    (@cycle_stop_operator_exact_target Nat 2).2 [] 0 2 (by decide),
    (@cycle_stop_operator_exact_target Nat 2).2 [] 0 3 (by decide)⟩

theorem cycleStop_run_while {V : Type} (sigma : List (String × V))
    (inds : List i_Individual) : ∀ (k c : Nat),
    sim_run_while (k + 2) (mk_sim_State false sigma inds [.cycleStop (c + k)] c) =
      some (mk_sim_State true sigma inds [.cycleStop (c + k)] (c + k + 1)) := by
  intro k
  induction k with
  | zero =>
    intro c
    rw [show sim_run_while (0 + 2) (mk_sim_State false sigma inds [.cycleStop (c + 0)] c) =
      sim_run_while 1
        (sim_cycle (mk_sim_State false sigma inds [.cycleStop (c + 0)] c)) from rfl]
    rw [show c + 0 = c from rfl, sim_cycle_cycleStop, if_pos rfl]
    rfl
  | succ k ih =>
    intro c
    rw [show sim_run_while (k + 1 + 2)
        (mk_sim_State false sigma inds [.cycleStop (c + (k + 1))] c) =
      sim_run_while (k + 2)
        (sim_cycle
          (mk_sim_State false sigma inds [.cycleStop (c + (k + 1))] c)) from rfl]
    rw [sim_cycle_cycleStop, if_neg (by omega)]
    have harg : c + (k + 1) = (c + 1) + k := by omega
    rw [harg]
    have hres := ih (c + 1)
    rw [hres]

/-- C3: do_n_cycles(n, individuals, []) started at cycle 0 (fuel n + 2
suffices, so the loop terminates) returns a state with cycle = n + 1
and the individuals list unchanged. -/
theorem do_n_cycles_terminates_cycle_count {V : Type} (n : Nat)
    (inds : List i_Individual) :
    ∃ st : sim_State V, sim_do_n_cycles (n + 2) n inds [] 0 = some st ∧
      st.cycle = n + 1 ∧ st.individuals = inds := by
  refine ⟨mk_sim_State true [] inds [.cycleStop (0 + n)] (0 + n + 1), ?_,
    by simp [mk_sim_State], rfl⟩
  have h := cycleStop_run_while ([] : List (String × V)) inds n 0
  rw [show sim_do_n_cycles (n + 2) n inds [] 0 =
      sim_run_while (n + 2)
        (mk_sim_State false ([] : List (String × V)) inds [.cycleStop (n + 0)] 0) from rfl]
  rw [show n + 0 = 0 + n by omega]
  exact h

/-- A deterministic statistics operator implementing the
ops_StatisticsOperator contract: its compute reads the accumulator it
stored in global_parameters on the previous cycle and adds one;
followed by a CycleStopOperator targeting cycle 2. -/
def async_divergence_operators : List (ops_Operator Nat) :=
  [.statistics "acc" (fun gp _ _ => (obj_get "acc" gp.stats).getD 0 + 1),
   .cycleStop 2]

/-- C5: with the accumulator statistics operator and a stop at cycle 2,
do_unspecified_cycles returns a final state whose acc slot is 3, while
do_async_cycles (caller always resuming) hands the callback states
whose acc slot is 1 on every invocation, because each resume rebuilds
global_parameters as stop false only, discarding the argument it was
given; the final delivered state disagrees with the synchronous one,
refuting the claimed equivalence.  The trace also shows one cycle step
per invocation (cycles 1, 2, 3) and that only the last invocation
(stop set) ends the run. -/
theorem async_sync_final_state_divergence :
    ((sim_do_unspecified_cycles 5 [] async_divergence_operators 0).map
        (fun st => (st.cycle, obj_get "acc" st.global_parameters.stats)) =
      some (3, some 3)) ∧
    ((sim_do_async_cycles 5 [] async_divergence_operators 0
          { stop := false, stats := [] }).map
        (fun tr => tr.map (fun st => (st.cycle, obj_get "acc" st.global_parameters.stats))) =
      some [(1, some 1), (2, some 1), (3, some 1)]) ∧
    (some (3 : Nat) ≠ some (1 : Nat)) :=
  ⟨rfl, rfl, by decide⟩

/-! ## Genome layout invariants -/

theorem obj_get_mem {α : Type} (l : List (String × α)) (n : String) (v : α)
    (h : obj_get n l = some v) : (n, v) ∈ l := by
  induction l with
  | nil => simp [obj_get] at h
  | cons p t ih =>
    unfold obj_get at h
    by_cases hp : p.1 = n
    · rw [if_pos hp] at h
      injection h with hv
      have hpv : p = (n, v) := by
        cases p with
        | mk k w =>
          simp only at hp hv
          rw [hp, hv]
      rw [hpv]
      exact List.mem_cons_self _ _
    · rw [if_neg hp] at h
      exact List.mem_cons_of_mem _ (ih h)

theorem gn_Genome_positions_length (s : Nat) (md : List (String × gn_CompChromosome)) :
    (gn_Genome_positions s md).length = md.length := by
  induction md generalizing s with
  | nil => rfl
  | cons p t ih =>
    cases p with
    | mk n e => simp [gn_Genome_positions, ih]

theorem gn_Genome_positions_getElem (s : Nat) (md : List (String × gn_CompChromosome)) :
    ∀ (i : Nat) (p : String × gn_CompChromosome), md[i]? = some p →
    (gn_Genome_positions s md)[i]? =
      some (p.1, s + ((md.take i).map (fun q => q.2.size)).sum) := by
  induction md generalizing s with
  | nil => intro i p hp; simp at hp
  | cons q t ih =>
    intro i p hp
    cases q with
    | mk n e =>
      cases i with
      | zero =>
        simp only [List.getElem?_cons_zero, Option.some.injEq] at hp
        subst hp
        simp [gn_Genome_positions]
      | succ i =>
        simp only [List.getElem?_cons_succ] at hp
        have := ih (s + e.size) i p hp
        simp only [gn_Genome_positions, List.getElem?_cons_succ, List.take_succ_cons,
          List.map_cons, List.sum_cons, this]
        congr 2
        omega

theorem obj_get_positions (md : List (String × gn_CompChromosome)) (n : String)
    (e : gn_CompChromosome) : ∀ s : Nat, obj_get n md = some e →
    ∃ off, obj_get n (gn_Genome_positions s md) = some (s + off) ∧
      off + e.size ≤ (md.map (fun p => p.2.size)).sum := by
  induction md with
  | nil => intro s h; simp [obj_get] at h
  | cons q t ih =>
    intro s h
    cases q with
    | mk k v =>
      by_cases hk : k = n
      · unfold obj_get at h
        rw [if_pos hk] at h
        injection h with h2
        refine ⟨0, ?_, ?_⟩
        · unfold gn_Genome_positions obj_get
          rw [if_pos hk, Nat.add_zero]
        · simp only [List.map_cons, List.sum_cons]
          rw [← h2]
          omega
      · unfold obj_get at h
        rw [if_neg hk] at h
        obtain ⟨off, hoff, hbound⟩ := ih (s + v.size) h
        refine ⟨v.size + off, ?_, ?_⟩
        · unfold gn_Genome_positions obj_get
          rw [if_neg hk, hoff]
          congr 1
          omega
        · simp only [List.map_cons, List.sum_cons]
          omega

theorem take_sum_mono (l : List Nat) : ∀ i j : Nat, i ≤ j →
    (l.take i).sum ≤ (l.take j).sum := by
  induction l with
  | nil => intro i j _; simp
  | cons a t ih =>
    intro i j hij
    cases i with
    | zero => simp
    | succ i =>
      cases j with
      | zero => omega
      | succ j =>
        simp only [List.take_succ_cons, List.sum_cons]
        have := ih i j (by omega)
        omega

theorem take_sum_succ (l : List Nat) : ∀ (i x : Nat), l[i]? = some x →
    (l.take (i + 1)).sum = (l.take i).sum + x := by
  induction l with
  | nil => intro i x h; simp at h
  | cons a t ih =>
    intro i x h
    cases i with
    | zero =>
      simp at h
      simp [h]
    | succ i =>
      simp only [List.getElem?_cons_succ] at h
      simp only [List.take_succ_cons, List.sum_cons, ih i x h]
      omega

theorem gn_Genome_new_ok_inv (md : List (String × gn_CompChromosome)) (g : gn_Genome)
    (hg : gn_Genome_new md = .ok g) :
    ∃ ln e st, (md.map Prod.fst).getLast? = some ln ∧ obj_get ln md = some e ∧
      obj_get ln (gn_Genome_positions 0 md) = some st ∧
      g = gn_Genome.mk md (md.map Prod.fst) (gn_Genome_positions 0 md) (st + e.size) := by
  unfold gn_Genome_new at hg
  cases hlast : (md.map Prod.fst).getLast? with
  | none =>
    simp only [hlast] at hg
    exact Except.noConfusion hg
  | some ln =>
    simp only [hlast] at hg
    cases he : obj_get ln md with
    | none =>
      simp only [he] at hg
      exact Except.noConfusion hg
    | some e =>
      cases hst : obj_get ln (gn_Genome_positions 0 md) with
      | none =>
        simp only [he, hst] at hg
        exact Except.noConfusion hg
      | some st =>
        simp only [he, hst] at hg
        refine ⟨ln, e, st, rfl, he, hst, ?_⟩
        have hg2 : (Except.ok (gn_Genome.mk md (md.map Prod.fst)
            (gn_Genome_positions 0 md) (st + e.size)) : Except String gn_Genome) =
            Except.ok g := hg
        injection hg2 with hg3
        rw [hg3]

theorem gn_Genome_new_size_sum (md : List (String × gn_CompChromosome)) (g : gn_Genome)
    (hg : gn_Genome_new md = .ok g) (hnd : (md.map Prod.fst).Nodup) :
    g.size = (md.map (fun p => p.2.size)).sum := by
  obtain ⟨ln, e, st, hlast, he, hst, hgdef⟩ := gn_Genome_new_ok_inv md g hg
  have hlen : md.length ≠ 0 := by
    intro h0
    rw [List.eq_nil_of_length_eq_zero h0] at hlast
    simp at hlast
  have hmaplen : (md.map Prod.fst).length = md.length := List.length_map _ _
  have hlt : md.length - 1 < md.length := by omega
  obtain ⟨plast, hplast⟩ : ∃ p, md[md.length - 1]? = some p :=
    ⟨md[md.length - 1], List.getElem?_eq_getElem hlt⟩
  have hname_last : (md.map Prod.fst)[md.length - 1]? = some plast.1 := by
    rw [List.getElem?_map, hplast]
    rfl
  have hln_eq : plast.1 = ln := by
    rw [List.getLast?_eq_getElem?, hmaplen, hname_last] at hlast
    injection hlast
  have hmem := obj_get_mem md ln e he
  obtain ⟨i, hi, hie⟩ := List.getElem_of_mem hmem
  have hie2 : md[i]? = some (ln, e) := by rw [List.getElem?_eq_getElem hi, hie]
  have hni : (md.map Prod.fst)[i]? = some ln := by
    rw [List.getElem?_map, hie2]
    rfl
  have hi_eq : i = md.length - 1 := by
    apply List.getElem?_inj (by omega : i < (md.map Prod.fst).length) hnd
    rw [hni, hname_last, hln_eq]
  have he_eq : (ln, e) = plast := by
    rw [hi_eq] at hie2
    rw [hie2] at hplast
    injection hplast
  have hmem2 := obj_get_mem (gn_Genome_positions 0 md) ln st hst
  obtain ⟨i2, hi2, hie3⟩ := List.getElem_of_mem hmem2
  have hie4 : (gn_Genome_positions 0 md)[i2]? = some (ln, st) := by
    rw [List.getElem?_eq_getElem hi2, hie3]
  have hni2 : (md.map Prod.fst)[i2]? = some ln := by
    rw [← gn_Genome_positions_map_fst 0 md, List.getElem?_map, hie4]
    rfl
  have hplen := gn_Genome_positions_length 0 md
  have hi2_eq : i2 = md.length - 1 := by
    apply List.getElem?_inj ?_ hnd
    · rw [hni2, hname_last, hln_eq]
    · rw [hmaplen]
      omega
  have hchar := gn_Genome_positions_getElem 0 md (md.length - 1) plast hplast
  rw [hi2_eq, hchar] at hie4
  have hst_eq : st = 0 + ((md.take (md.length - 1)).map (fun q => q.2.size)).sum := by
    injection hie4 with hie5
    exact (congrArg Prod.snd hie5.symm)
  have hsizes_last : (md.map (fun p => p.2.size))[md.length - 1]? = some plast.2.size := by
    rw [List.getElem?_map, hplast]
    rfl
  have htss := take_sum_succ (md.map fun p => p.2.size) (md.length - 1) plast.2.size hsizes_last
  have hfull : (md.map fun p => p.2.size).take (md.length - 1 + 1) =
      md.map fun p => p.2.size := by
    have h1 : md.length - 1 + 1 = md.length := by omega
    rw [h1, ← List.length_map md (fun p => p.2.size), List.take_length]
  have htake_comm : ((md.take (md.length - 1)).map (fun q => q.2.size)).sum =
      ((md.map fun p => p.2.size).take (md.length - 1)).sum := by
    rw [List.map_take]
  have hesize : e.size = plast.2.size := by
    rw [← he_eq]
  have hgoal : ((md.map fun p => p.2.size)).sum =
      ((md.map fun p => p.2.size).take (md.length - 1)).sum + plast.2.size := by
    rw [← htss, hfull]
  rw [hgdef]
  show st + e.size = (md.map fun p => p.2.size).sum
  rw [hst_eq, htake_comm, hesize, hgoal]
  omega

/-- C4: for a Genome built from non-empty metadata, size equals the sum
of all chromosome sizes; start offsets along marker_order are monotone;
every chromosome fits: start(name) + size(name) is at most genome.size;
the ranges of two distinct chromosomes do not overlap (the earlier one
ends before the later one starts); and size equals the last entry
start offset plus its size. -/
theorem genome_layout_invariants (md : List (String × gn_CompChromosome)) (g : gn_Genome)
    (hg : gn_Genome_new md = .ok g) (hnd : (md.map Prod.fst).Nodup) :
    g.size = (md.map (fun p => p.2.size)).sum ∧
    (∀ (i j : Nat) (si sj : String × Nat), i ≤ j → g.marker_start[i]? = some si →
      g.marker_start[j]? = some sj → si.2 ≤ sj.2) ∧
    (∀ n e, obj_get n md = some e →
      ∃ s, g.get_marker_start n = some s ∧ s + e.size ≤ g.size) ∧
    (∀ (i j : Nat) (pi : String × gn_CompChromosome) (si sj : String × Nat), i < j →
      md[i]? = some pi → g.marker_start[i]? = some si →
      g.marker_start[j]? = some sj → si.2 + pi.2.size ≤ sj.2) ∧
    (∃ ln e st, g.marker_order.getLast? = some ln ∧ obj_get ln md = some e ∧
      g.get_marker_start ln = some st ∧ g.size = st + e.size) := by
  have hsum := gn_Genome_new_size_sum md g hg hnd
  obtain ⟨ln, e0, st0, hlast, he0, hst0, hgdef⟩ := gn_Genome_new_ok_inv md g hg
  have hplen := gn_Genome_positions_length 0 md
  refine ⟨hsum, ?_, ?_, ?_, ?_⟩
  · intro i j si sj hij hsi hsj
    have hsi2 : (gn_Genome_positions 0 md)[i]? = some si := by rw [← hsi, hgdef]
    have hsj2 : (gn_Genome_positions 0 md)[j]? = some sj := by rw [← hsj, hgdef]
    obtain ⟨hi, -⟩ := List.getElem?_eq_some_iff.mp hsi2
    obtain ⟨hj, -⟩ := List.getElem?_eq_some_iff.mp hsj2
    have hpi : md[i]? = some md[i] := List.getElem?_eq_getElem (by omega)
    have hpj : md[j]? = some md[j] := List.getElem?_eq_getElem (by omega)
    rw [gn_Genome_positions_getElem 0 md i md[i] hpi] at hsi2
    rw [gn_Genome_positions_getElem 0 md j md[j] hpj] at hsj2
    injection hsi2 with hsi3
    injection hsj2 with hsj3
    have hsi4 : si.2 = 0 + ((md.take i).map (fun q => q.2.size)).sum := by rw [← hsi3]
    have hsj4 : sj.2 = 0 + ((md.take j).map (fun q => q.2.size)).sum := by rw [← hsj3]
    have hm := take_sum_mono (md.map fun p => p.2.size) i j hij
    rw [hsi4, hsj4, List.map_take, List.map_take]
    omega
  · intro n e he
    obtain ⟨off, hoff, hbound⟩ := obj_get_positions md n e 0 he
    refine ⟨0 + off, ?_, ?_⟩
    · rw [hgdef]
      exact hoff
    · rw [hsum]
      omega
  · intro i j pi si sj hij hpi hsi hsj
    have hsi2 : (gn_Genome_positions 0 md)[i]? = some si := by rw [← hsi, hgdef]
    have hsj2 : (gn_Genome_positions 0 md)[j]? = some sj := by rw [← hsj, hgdef]
    obtain ⟨hj, -⟩ := List.getElem?_eq_some_iff.mp hsj2
    have hpj : md[j]? = some md[j] := List.getElem?_eq_getElem (by omega)
    rw [gn_Genome_positions_getElem 0 md i pi hpi] at hsi2
    rw [gn_Genome_positions_getElem 0 md j md[j] hpj] at hsj2
    injection hsi2 with hsi3
    injection hsj2 with hsj3
    have hsi4 : si.2 = 0 + ((md.take i).map (fun q => q.2.size)).sum := by rw [← hsi3]
    have hsj4 : sj.2 = 0 + ((md.take j).map (fun q => q.2.size)).sum := by rw [← hsj3]
    have hsizei : (md.map (fun p => p.2.size))[i]? = some pi.2.size := by
      rw [List.getElem?_map, hpi]
      rfl
    have hstep := take_sum_succ (md.map fun p => p.2.size) i pi.2.size hsizei
    have hm := take_sum_mono (md.map fun p => p.2.size) (i + 1) j (by omega)
    rw [hsi4, hsj4, List.map_take, List.map_take]
    omega
  · refine ⟨ln, e0, st0, ?_, he0, ?_, ?_⟩
    · rw [hgdef]
      exact hlast
    · rw [hgdef]
      exact hst0
    · rw [hgdef]

/-- Concrete two-chromosome metadata for the layout witness. -/
def layout_md : List (String × gn_CompChromosome) :=
  [("a", .chromosome snp1_chromosome), ("b", .chromosomePair snp1_chromosome)]

/-- The genome the constructor builds from layout_md. -/
def layout_genome : gn_Genome :=
  gn_Genome.mk layout_md (layout_md.map Prod.fst) (gn_Genome_positions 0 layout_md) 3

/-- Witness for genome_layout_invariants at the concrete two-chromosome genome. -/
theorem genome_layout_invariants_witness :
    layout_genome.size = (layout_md.map (fun p => p.2.size)).sum ∧
    (∃ s, layout_genome.get_marker_start "b" = some s ∧
      s + (gn_CompChromosome.chromosomePair snp1_chromosome).size ≤ layout_genome.size) :=
  ⟨(genome_layout_invariants layout_md layout_genome rfl (by decide)).1,
    (genome_layout_invariants layout_md layout_genome rfl (by decide)).2.2.1 "b"
      (.chromosomePair snp1_chromosome) rfl⟩

/-! ## Genome builder -/

theorem nodup_obj_get_self {α : Type} (l : List (String × α))
    (hnd : (l.map Prod.fst).Nodup) : ∀ p ∈ l, obj_get p.1 l = some p.2 := by
  induction l with
  | nil => intro p hp; simp at hp
  | cons q t ih =>
    intro p hp
    rcases List.mem_cons.mp hp with hq | ht
    · rw [hq]
      unfold obj_get
      rw [if_pos rfl]
    · have hnot : q.1 ∉ t.map Prod.fst := by
        simp only [List.map_cons, List.nodup_cons] at hnd
        exact hnd.1
      have hne : q.1 ≠ p.1 := by
        intro hq1
        exact hnot (hq1 ▸ List.mem_map.mpr ⟨p, ht, rfl⟩)
      unfold obj_get
      rw [if_neg hne]
      have hnd2 : (t.map Prod.fst).Nodup := by
        simp only [List.map_cons, List.nodup_cons] at hnd
        exact hnd.2
      exact ih hnd2 p ht

/-- The buffer produced by the builder walk, entry by entry. -/
def write_chain (f : List Nat → Nat) :
    List (String × gn_CompChromosome) → Nat → List Nat → List Nat
  | [], _, buffer => buffer
  | (_, e) :: rest, position, buffer =>
      write_chain f rest (position + e.size)
        (integrated_write_features f e.markers position buffer)

/-- The flattened locus sequence of a metadata map, in layout order. -/
def genome_loci : List (String × gn_CompChromosome) → List gn_Marker
  | [] => []
  | (_, e) :: rest => e.markers ++ genome_loci rest

theorem integrated_write_features_length (f : List Nat → Nat) (features : List gn_Marker)
    (position : Nat) (buffer : List Nat) :
    (integrated_write_features f features position buffer).length = buffer.length :=
  foldl_set_length buffer position features.length
    (fun i => f ((features.getD i { possible_values := [] }).possible_values) % 256)

theorem integrated_write_features_getD (f : List Nat → Nat) (features : List gn_Marker)
    (position : Nat) (buffer : List Nat) (j : Nat) :
    (integrated_write_features f features position buffer).getD j 0 =
      if position ≤ j ∧ j < position + features.length ∧ j < buffer.length
      then f ((features.getD (j - position) { possible_values := [] }).possible_values) % 256
      else buffer.getD j 0 :=
  foldl_set_getD buffer position features.length
    (fun i => f ((features.getD i { possible_values := [] }).possible_values) % 256) j

theorem create_go_chain (md : List (String × gn_CompChromosome)) (f : List Nat → Nat) :
    ∀ (md2 : List (String × gn_CompChromosome)) (position : Nat) (buffer : List Nat),
    (∀ p ∈ md2, obj_get p.1 md = some p.2) →
    integrated_create_simple_genome_go md f position buffer (md2.map Prod.fst) =
      some (write_chain f md2 position buffer) := by
  intro md2
  induction md2 with
  | nil => intro position buffer _; rfl
  | cons q t ih =>
    intro position buffer hlook
    cases q with
    | mk n e =>
      have hn : obj_get n md = some e := hlook (n, e) (List.mem_cons_self _ _)
      show integrated_create_simple_genome_go md f position buffer (n :: t.map Prod.fst) = _
      unfold integrated_create_simple_genome_go
      rw [hn]
      exact ih (position + e.size) (integrated_write_features f e.markers position buffer)
        (fun p hp => hlook p (List.mem_cons_of_mem _ hp))

theorem write_chain_length (f : List Nat → Nat) :
    ∀ (md2 : List (String × gn_CompChromosome)) (position : Nat) (buffer : List Nat),
    (write_chain f md2 position buffer).length = buffer.length := by
  intro md2
  induction md2 with
  | nil => intro position buffer; rfl
  | cons q t ih =>
    intro position buffer
    cases q with
    | mk n e =>
      show (write_chain f t (position + e.size) _).length = _
      rw [ih, integrated_write_features_length]

theorem write_chain_getD (f : List Nat → Nat) :
    ∀ (md2 : List (String × gn_CompChromosome)) (position : Nat) (buffer : List Nat)
      (j : Nat), (∀ p ∈ md2, p.2.size = p.2.markers.length) →
    (write_chain f md2 position buffer).getD j 0 =
      if position ≤ j ∧ j < position + (md2.map (fun p => p.2.size)).sum ∧ j < buffer.length
      then f (((genome_loci md2).getD (j - position) { possible_values := [] }).possible_values)
        % 256
      else buffer.getD j 0 := by
  intro md2
  induction md2 with
  | nil =>
    intro position buffer j _
    rw [if_neg (by simp; omega)]
    rfl
  | cons q t ih =>
    intro position buffer j hwf
    cases q with
    | mk n e =>
      have hwfe : e.size = e.markers.length := hwf (n, e) (List.mem_cons_self _ _)
      have hwft : ∀ p ∈ t, p.2.size = p.2.markers.length :=
        fun p hp => hwf p (List.mem_cons_of_mem _ hp)
      have hblen : (integrated_write_features f e.markers position buffer).length =
        buffer.length := integrated_write_features_length f e.markers position buffer
      show (write_chain f t (position + e.size) _).getD j 0 = _
      rw [ih (position + e.size) _ j hwft, hblen, integrated_write_features_getD]
      simp only [List.map_cons, List.sum_cons, genome_loci]
      by_cases hA : position + e.size ≤ j ∧
          j < position + e.size + (t.map (fun p => p.2.size)).sum ∧ j < buffer.length
      · rw [if_pos hA, if_pos (by omega)]
        have hge : e.markers.length ≤ j - position := by omega
        have hidx : j - (position + e.size) = j - position - e.markers.length := by omega
        rw [hidx]
        congr 2
        rw [List.getD_eq_getElem?_getD, List.getD_eq_getElem?_getD,
          List.getElem?_append_right hge]
      · rw [if_neg hA]
        by_cases hB : position ≤ j ∧ j < position + e.markers.length ∧ j < buffer.length
        · rw [if_pos hB, if_pos (by omega)]
          congr 2
          rw [List.getD_eq_getElem?_getD, List.getD_eq_getElem?_getD,
            List.getElem?_append_left (by omega)]
        · rw [if_neg hB, if_neg (show ¬(position ≤ j ∧
            j < position + (e.size + (t.map (fun p => p.2.size)).sum) ∧
            j < buffer.length) by omega)]

theorem genome_loci_length :
    ∀ md2 : List (String × gn_CompChromosome),
    (genome_loci md2).length = (md2.map (fun p => p.2.markers.length)).sum := by
  intro md2
  induction md2 with
  | nil => rfl
  | cons q t ih =>
    cases q with
    | mk n e => simp [genome_loci, ih]

theorem mem_genome_loci :
    ∀ (md2 : List (String × gn_CompChromosome)) (m : gn_Marker),
    m ∈ genome_loci md2 → ∃ p ∈ md2, m ∈ p.2.markers := by
  intro md2
  induction md2 with
  | nil => intro m hm; simp [genome_loci] at hm
  | cons q t ih =>
    intro m hm
    cases q with
    | mk n e =>
      rcases List.mem_append.mp hm with h1 | h2
      · exact ⟨(n, e), List.mem_cons_self _ _, h1⟩
      · obtain ⟨p, hp, hpm⟩ := ih m h2
        exact ⟨p, List.mem_cons_of_mem _ hp, hpm⟩

theorem utils_random_choice_mem (pick : Nat) (choices : List Nat) (h : choices ≠ []) :
    utils_random_choice pick choices ∈ choices := by
  unfold utils_random_choice
  have hlen : 0 < choices.length := List.length_pos.mpr h
  have hmod : pick % choices.length < choices.length := Nat.mod_lt _ hlen
  rw [List.getD_eq_getElem?_getD, List.getElem?_eq_getElem hmod]
  exact List.getElem_mem hmod

/-- C9: for a genome whose markers all have non-empty byte-valued
possible_values, create_simple_genome with the uniform-random chooser
(one random draw per locus, modelled by pick) produces a buffer of
length genome.size whose byte at every position is an element of the
possible_values of the locus occupying that position (the flattened
locus list of the metadata, covering both gamete copies of diploid
pairs). -/
theorem create_randomized_genome_possible_values
    (md : List (String × gn_CompChromosome)) (g : gn_Genome)
    (hg : gn_Genome_new md = .ok g) (hnd : (md.map Prod.fst).Nodup)
    (hwf : ∀ p ∈ md, p.2.size = p.2.markers.length)
    (hvals : ∀ p ∈ md, ∀ m ∈ p.2.markers, m.possible_values ≠ [] ∧
      ∀ v ∈ m.possible_values, v < 256)
    (pick : List Nat → Nat) :
    ∃ buffer : List Nat, integrated_create_randomized_genome pick g = some buffer ∧
      buffer.length = g.size ∧
      ∀ j : Nat, j < g.size → ∃ m : gn_Marker, (genome_loci md)[j]? = some m ∧
        buffer.getD j 0 ∈ m.possible_values := by
  have hsum := gn_Genome_new_size_sum md g hg hnd
  obtain ⟨ln, e0, st0, hlast, he0, hst0, hgdef⟩ := gn_Genome_new_ok_inv md g hg
  have hmapeq : md.map (fun p => p.2.size) = md.map (fun p => p.2.markers.length) :=
    List.map_congr_left hwf
  have hloci_len : (genome_loci md).length = (md.map (fun p => p.2.size)).sum := by
    rw [genome_loci_length, hmapeq]
  subst hgdef
  refine ⟨write_chain (fun possible_values =>
      utils_random_choice (pick possible_values) possible_values) md 0
      (List.replicate (st0 + e0.size) 0), ?_, ?_, ?_⟩
  · exact create_go_chain md _ md 0 (List.replicate (st0 + e0.size) 0)
      (nodup_obj_get_self md hnd)
  · rw [write_chain_length, List.length_replicate]
  · intro j hj
    have hjsize : j < st0 + e0.size := hj
    have hjsum : j < (md.map (fun p => p.2.size)).sum := by
      rw [← hsum]
      exact hj
    have hjl : j < (genome_loci md).length := by omega
    refine ⟨(genome_loci md)[j], List.getElem?_eq_getElem hjl, ?_⟩
    rw [write_chain_getD _ md 0 _ j hwf,
      if_pos ⟨by omega, by rw [List.length_replicate]; omega⟩]
    have hgetd : (genome_loci md).getD (j - 0) { possible_values := [] } =
        (genome_loci md)[j] := by
      rw [List.getD_eq_getElem?_getD, show j - 0 = j from rfl,
        List.getElem?_eq_getElem hjl]
      rfl
    rw [hgetd]
    have hmem := List.getElem_mem hjl
    obtain ⟨p, hp, hpm⟩ := mem_genome_loci md _ hmem
    obtain ⟨hne, hlt⟩ := hvals p hp _ hpm
    have hchoice := utils_random_choice_mem (pick (genome_loci md)[j].possible_values)
      (genome_loci md)[j].possible_values hne
    rw [Nat.mod_eq_of_lt (hlt _ hchoice)]
    exact hchoice

/-- Witness for create_randomized_genome_possible_values on the
two-chromosome genome with the draw that always picks index 1. -/
theorem create_randomized_genome_possible_values_witness :
    ∃ buffer : List Nat,
      integrated_create_randomized_genome (fun _ => 1) layout_genome = some buffer ∧
      buffer.length = layout_genome.size ∧
      ∀ j : Nat, j < layout_genome.size → ∃ m : gn_Marker,
        (genome_loci layout_md)[j]? = some m ∧ buffer.getD j 0 ∈ m.possible_values :=
  create_randomized_genome_possible_values layout_md layout_genome rfl (by decide)
    (by decide) (by decide) (fun _ => 1)

/-! ## Genome count statistics -/

/-- The count structure built by the statistics walk, entry by entry. -/
def count_tables (individuals : List i_Individual) :
    List (String × gn_CompChromosome) → Nat → List (String × List (List (Nat × Nat)))
  | [], _ => []
  | (n, e) :: rest, position =>
      (n, ops_marker_tables e individuals position) ::
        count_tables individuals rest (position + e.size)

theorem compute_go_chain (md : List (String × gn_CompChromosome))
    (individuals : List i_Individual) :
    ∀ (md2 : List (String × gn_CompChromosome)) (position : Nat),
    (∀ p ∈ md2, obj_get p.1 md = some p.2) →
    ops_compute_go md individuals position (md2.map Prod.fst) =
      some (count_tables individuals md2 position) := by
  intro md2
  induction md2 with
  | nil => intro position _; rfl
  | cons q t ih =>
    intro position hlook
    cases q with
    | mk n e =>
      have hn : obj_get n md = some e := hlook (n, e) (List.mem_cons_self _ _)
      show ops_compute_go md individuals position (n :: t.map Prod.fst) = _
      unfold ops_compute_go
      simp only [hn]
      rw [ih (position + e.size) (fun p hp => hlook p (List.mem_cons_of_mem _ hp))]
      rfl

theorem obj_get_positions_tables (md : List (String × gn_CompChromosome))
    (individuals : List i_Individual) (n : String) (e : gn_CompChromosome) :
    ∀ s t : Nat, obj_get n md = some e →
    ∃ off, obj_get n (gn_Genome_positions s md) = some (s + off) ∧
      obj_get n (count_tables individuals md t) =
        some (ops_marker_tables e individuals (t + off)) := by
  induction md with
  | nil => intro s t h; simp [obj_get] at h
  | cons q mdt ih =>
    intro s t h
    cases q with
    | mk k v =>
      by_cases hk : k = n
      · unfold obj_get at h
        rw [if_pos hk] at h
        injection h with h2
        refine ⟨0, ?_, ?_⟩
        · unfold gn_Genome_positions obj_get
          rw [if_pos hk, Nat.add_zero]
        · unfold count_tables obj_get
          rw [if_pos hk, Nat.add_zero, h2]
      · unfold obj_get at h
        rw [if_neg hk] at h
        obtain ⟨off, hoff, htab⟩ := ih (s + v.size) (t + v.size) h
        refine ⟨v.size + off, ?_, ?_⟩
        · unfold gn_Genome_positions obj_get
          rw [if_neg hk, hoff]
          congr 1
          omega
        · unfold count_tables obj_get
          rw [if_neg hk, htab]
          congr 2
          omega

theorem ops_incr_count_iterate (b : Nat) :
    ∀ k : Nat, (ops_incr_count b)^[k + 1] [] = [(b, k + 1)] := by
  intro k
  induction k with
  | zero => rfl
  | succ k ih =>
    rw [Function.iterate_succ_apply', ih]
    unfold ops_incr_count
    rw [if_pos rfl]

theorem foldl_const_iterate {α β : Type} (g : α → α) :
    ∀ (l : List β) (x : α), l.foldl (fun a _ => g a) x = g^[l.length] x := by
  intro l
  induction l with
  | nil => intro x; rfl
  | cons y t ih =>
    intro x
    show t.foldl (fun a _ => g a) (g x) = _
    rw [ih (g x), List.length_cons, ← Function.iterate_succ_apply]

theorem foldl_incr_identical (position_i : Nat) (bytes : List Nat) :
    ∀ (l : List i_Individual), (∀ ind ∈ l, ind.genome = bytes) → ∀ fc,
    l.foldl (fun fc2 ind => ops_incr_count (ind.genome.getD position_i 0) fc2) fc =
      (ops_incr_count (bytes.getD position_i 0))^[l.length] fc := by
  intro l
  induction l with
  | nil => intro _ fc; rfl
  | cons ind t ih =>
    intro hgen fc
    have h0 : ind.genome = bytes := hgen ind (List.mem_cons_self _ _)
    show t.foldl _ (ops_incr_count (ind.genome.getD position_i 0) fc) = _
    rw [h0, ih (fun x hx => hgen x (List.mem_cons_of_mem _ hx)),
      List.length_cons, ← Function.iterate_succ_apply]

theorem feature_tally_identical (starts : List Nat) (individuals : List i_Individual)
    (position_i : Nat) (bytes : List Nat)
    (hgen : ∀ ind ∈ individuals, ind.genome = bytes)
    (hne : individuals ≠ []) (hs : starts ≠ []) :
    ops_feature_tally starts individuals position_i =
      [(bytes.getD position_i 0, individuals.length * starts.length)] := by
  unfold ops_feature_tally
  have hinner : ∀ fc : List (Nat × Nat),
      individuals.foldl
        (fun fc2 ind => ops_incr_count (ind.genome.getD position_i 0) fc2) fc =
        (ops_incr_count (bytes.getD position_i 0))^[individuals.length] fc :=
    foldl_incr_identical position_i bytes individuals hgen
  have houter : starts.foldl
      (fun fc _ => individuals.foldl
        (fun fc2 ind => ops_incr_count (ind.genome.getD position_i 0) fc2) fc) [] =
      ((ops_incr_count (bytes.getD position_i 0))^[individuals.length])^[starts.length]
        [] := by
    rw [show (fun (fc : List (Nat × Nat)) (_ : Nat) => individuals.foldl
        (fun fc2 ind => ops_incr_count (ind.genome.getD position_i 0) fc2) fc) =
        (fun fc _ => (ops_incr_count
          (bytes.getD position_i 0))^[individuals.length] fc) from funext fun fc =>
            funext fun _ => hinner fc]
    exact foldl_const_iterate _ starts []
  rw [houter, ← Function.iterate_mul]
  have hpos : 1 ≤ individuals.length * starts.length := by
    have h1 : 0 < individuals.length := List.length_pos.mpr hne
    have h2 : 0 < starts.length := List.length_pos.mpr hs
    exact Nat.one_le_iff_ne_zero.mpr (by positivity)
  rw [show individuals.length * starts.length =
    (individuals.length * starts.length - 1) + 1 from by omega]
  exact ops_incr_count_iterate _ _

theorem ops_marker_tables_getElem (e : gn_CompChromosome) (individuals : List i_Individual)
    (position i : Nat)
    (hi : i < if e.is_autosomal then e.markers.length / 2 else e.markers.length) :
    (ops_marker_tables e individuals position)[i]? =
      some (ops_feature_tally
        (if e.is_autosomal then [0, e.markers.length / 2] else [0])
        individuals (position + i)) := by
  unfold ops_marker_tables
  cases haut : e.is_autosomal with
  | false =>
    rw [haut] at hi
    simp only [haut, Bool.false_eq_true, if_false] at hi ⊢
    rw [List.getElem?_map, List.getElem?_range hi]
    rfl
  | true =>
    rw [haut] at hi
    simp only [haut, if_true] at hi ⊢
    rw [List.getElem?_map, List.getElem?_range hi]
    rfl

/-- C1 (amended): over a population of individuals sharing one species
and all carrying the same genome bytes, GenomeCountStatistics.compute
produces, for every locus i of every chromosome entry, a frequency
table with exactly one key, the shared allele byte at the locus start
offset plus i; its count is the population size N for a non-autosomal
chromosome, but 2N for an autosomal chromosome, because the source
iterates the two start offsets without using them in the genome index:
both passes tally the FIRST gamete copy, and the second copy is never
read. -/
theorem genome_count_statistics_identical_population
    (md : List (String × gn_CompChromosome)) (g : gn_Genome)
    (hg : gn_Genome_new md = .ok g) (hnd : (md.map Prod.fst).Nodup)
    (sp : sp_Species) (hsp : sp.genome = g)
    (inds : List i_Individual) (hne : inds ≠ [])
    (hspec : ∀ ind ∈ inds, ind.species = sp)
    (bytes : List Nat) (hgen : ∀ ind ∈ inds, ind.genome = bytes)
    (n : String) (e : gn_CompChromosome) (he : obj_get n md = some e)
    (i : Nat)
    (hi : i < if e.is_autosomal then e.markers.length / 2 else e.markers.length) :
    ∃ (counts : List (String × List (List (Nat × Nat))))
      (tables : List (List (Nat × Nat))) (s : Nat),
      ops_GenomeCountStatistics_compute inds = some counts ∧
      obj_get n counts = some tables ∧
      g.get_marker_start n = some s ∧
      tables[i]? = some [(bytes.getD (s + i) 0,
        inds.length * (if e.is_autosomal then 2 else 1))] := by
  obtain ⟨ln, e0, st0, hlast, he0, hst0, hgdef⟩ := gn_Genome_new_ok_inv md g hg
  obtain ⟨ind0, rest, hinds⟩ : ∃ a l, inds = a :: l := by
    cases inds with
    | nil => exact absurd rfl hne
    | cons a l => exact ⟨a, l, rfl⟩
  subst hinds
  have hsp0 : ind0.species = sp := hspec ind0 (List.mem_cons_self _ _)
  obtain ⟨off, hoffpos, hofftab⟩ :=
    obj_get_positions_tables md (ind0 :: rest) n e 0 0 he
  have hrun := compute_go_chain md (ind0 :: rest) md 0 (nodup_obj_get_self md hnd)
  refine ⟨count_tables (ind0 :: rest) md 0,
    ops_marker_tables e (ind0 :: rest) (0 + off), 0 + off, ?_, hofftab, ?_, ?_⟩
  · show (ops_compute_go ind0.species.genome.metadata (ind0 :: rest) 0
        ind0.species.genome.marker_order).map ops_GenomeCountStatistics_compute_counts =
      some (count_tables (ind0 :: rest) md 0)
    rw [hsp0, hsp, hgdef]
    show (ops_compute_go md (ind0 :: rest) 0
        (md.map Prod.fst)).map ops_GenomeCountStatistics_compute_counts = _
    rw [hrun]
    rfl
  · rw [hgdef]
    exact hoffpos
  · rw [ops_marker_tables_getElem e (ind0 :: rest) (0 + off) i hi]
    have hstarts_ne : (if e.is_autosomal then [0, e.markers.length / 2] else [0]) ≠
        ([] : List Nat) := by
      cases e.is_autosomal <;> simp
    rw [feature_tally_identical _ (ind0 :: rest) (0 + off + i) bytes hgen
      (by simp) hstarts_ne]
    have hslen : (if e.is_autosomal then [0, e.markers.length / 2]
        else ([0] : List Nat)).length = (if e.is_autosomal then 2 else 1) := by
      cases e.is_autosomal <;> rfl
    rw [hslen]

/-- One autosomal chromosome pair over a single biallelic SNP. -/
def c1_md : List (String × gn_CompChromosome) := [("c", .chromosomePair snp1_chromosome)]

/-- The genome built from c1_md (size 2: the two gamete copies). -/
def c1_genome : gn_Genome := gn_Genome.mk c1_md ["c"] [("c", 0)] 2

/-- The species over c1_genome. -/
def c1_species : sp_Species := { name := "s", genome := c1_genome }

/-- A single individual with both gamete copies equal to 0. -/
def c1_individual : i_Individual :=
  { id := 0, species := c1_species, alive := true, cycle_born := 0, genome := [0, 0] }

/-- Counterexample to C1 as stated: a population of ONE individual,
identical (trivially) genomes, whose species genome is an autosomal
chromosome pair with one biallelic SNP locus.  compute yields a
frequency table with one key whose count is 2, not the population size
1: the autosomal branch iterates the two start offsets and tallies the
same first-copy byte twice. -/
theorem genome_count_statistics_autosomal_counterexample :
    ops_GenomeCountStatistics_compute [c1_individual] = some [("c", [[(0, 2)]])] ∧
    [c1_individual].length = 1 ∧ (2 : Nat) ≠ 1 :=
  ⟨rfl, rfl, by decide⟩

/-- Witness for genome_count_statistics_identical_population at the
concrete autosomal one-SNP genome with one individual. -/
theorem genome_count_statistics_identical_population_witness :
    ∃ (counts : List (String × List (List (Nat × Nat))))
      (tables : List (List (Nat × Nat))) (s : Nat),
      ops_GenomeCountStatistics_compute [c1_individual] = some counts ∧
      obj_get "c" counts = some tables ∧
      c1_genome.get_marker_start "c" = some s ∧
      tables[0]? = some [(([0, 0] : List Nat).getD (s + 0) 0,
        [c1_individual].length *
          (if (gn_CompChromosome.chromosomePair snp1_chromosome).is_autosomal
            then 2 else 1))] :=
  genome_count_statistics_identical_population c1_md c1_genome rfl (by decide)
    c1_species rfl [c1_individual] (by simp) (by decide) [0, 0] (by decide)
    "c" (.chromosomePair snp1_chromosome) rfl 0 (by decide)
